import Mathlib

/-!
Verification of the command-line tokenizer and encoder of the `exec` package
(`exec.go`). Strings are modelled at the rune level as `List Char`, matching
the Go code's `[]rune` processing. Fallible operations return `Except Err`.
-/

namespace Exec

/-- The end-of-line sentinel rune `'\000'` (Go constant `eol`). -/
def eol : Char := Char.ofNat 0

/-- The escape rune, a backslash (Go constant `esc`). -/
def esc : Char := Char.ofNat 92

/-- The single-quote rune (Go constant `sqt`). -/
def sqt : Char := Char.ofNat 39

/-- The double-quote rune (Go constant `dqt`). -/
def dqt : Char := Char.ofNat 34

/-- The space rune used by `GetCommandLine` between tokens. -/
def spaceChar : Char := Char.ofNat 32

/-- Go's `unicode.IsSpace`: Latin-1 cases `'\t' '\n' '\v' '\f' '\r' ' '`,
U+0085, U+00A0, and the remaining White_Space codepoints U+1680,
U+2000..U+200A, U+2028, U+2029, U+202F, U+205F, U+3000. -/
def isSpace (r : Char) : Bool :=
  r.toNat = 9 || r.toNat = 10 || r.toNat = 11 || r.toNat = 12 || r.toNat = 13 ||
  r.toNat = 32 || r.toNat = 0x85 || r.toNat = 0xA0 ||
  r.toNat = 0x1680 || (0x2000 ≤ r.toNat && r.toNat ≤ 0x200A) ||
  r.toNat = 0x2028 || r.toNat = 0x2029 || r.toNat = 0x202F ||
  r.toNat = 0x205F || r.toNat = 0x3000

/-- Parser state constants `parseDefault`, `parseSingleQuote`, `parseDoubleQuote`. -/
inductive PState where
  | parseDefault
  | parseSingleQuote
  | parseDoubleQuote
deriving DecidableEq, Repr

/-- The mutable locals of Go's `split` loop: accumulated `parts`, the quote
`state`, the `escape` flag, the string-builder buffer `sb`, and `partStart`
(index of the previous token boundary, initially `0`). -/
structure SplitState where
  parts : List (List Char)
  state : PState
  escape : Bool
  sb : List Char
  partStart : Nat
deriving DecidableEq, Repr

/-- Errors of the package. `parse` corresponds to `ErrParse.Make().Msg(...)`;
`generic` stands for any other `errors.Error` a callback may produce. -/
inductive Err where
  | parse (msg : String)
  | generic (msg : String)
deriving DecidableEq, Repr

/-- `ErrParse.Make().Msg("Invalid 0 char in command line")`. -/
def errInvalidZero : Err := Err.parse "Invalid 0 char in command line"

/-- `ErrParse.Make().Msg("Unexpected end of command line")`. -/
def errUnexpectedEnd : Err := Err.parse "Unexpected end of command line"

/-- The `switch state` body of Go's `split` loop for rune `r` at index `i`
(the part that runs after the `r == eol` error checks; it never fails).
`sb.WriteRune` is list append; `parts = append(parts, sb.String())` with
`sb.Reset()` is modelled in the boundary branch. Go's `int` comparison
`partStart < i-1` is equivalent to the truncated-`Nat` one used here:
both are false whenever `i = 0` since `partStart ≥ 0`. -/
def stepState (st : SplitState) (i : Nat) (r : Char) : SplitState :=
  match st.state with
  | PState.parseDefault =>
    if st.escape then
      { st with escape := false, sb := st.sb ++ [r] }
    else if isSpace r ∨ r = eol then
      if st.partStart < i - 1 then
        { st with parts := st.parts ++ [st.sb], sb := [], partStart := i }
      else
        { st with partStart := i }
    else if r = sqt then
      { st with state := PState.parseSingleQuote }
    else if r = dqt then
      { st with state := PState.parseDoubleQuote }
    else if r = esc then
      { st with escape := true }
    else
      { st with sb := st.sb ++ [r] }
  | PState.parseSingleQuote =>
    if r = sqt then
      { st with state := PState.parseDefault }
    else
      { st with sb := st.sb ++ [r] }
  | PState.parseDoubleQuote =>
    if st.escape then
      { st with
        escape := false
        sb := st.sb ++ (if r ≠ esc ∧ r ≠ dqt then [esc, r] else [r]) }
    else if r = dqt then
      { st with state := PState.parseDefault }
    else if r = esc then
      { st with escape := true }
    else
      { st with sb := st.sb ++ [r] }

/-- One iteration of Go's `split` loop over `runes` of total length `n`:
the `r == eol` checks (`i < len(runes)-1` rejects a literal sentinel, then
a non-default state or pending escape at the final sentinel is rejected),
followed by the state switch. In the Go source the second error test is
nested under `r == eol` after the first; flattening it is equivalent since
the first branch already consumed `r = eol ∧ i < n-1`. -/
def splitStep (n : Nat) (st : SplitState) (i : Nat) (r : Char) :
    Except Err SplitState :=
  if r = eol ∧ i < n - 1 then
    Except.error errInvalidZero
  else if r = eol ∧ (st.state ≠ PState.parseDefault ∨ st.escape = true) then
    Except.error errUnexpectedEnd
  else
    Except.ok (stepState st i r)

/-- The `for i, r := range runes` loop of Go's `split`, with `i` the index of
the head of the remaining rune list. -/
def splitLoop (n : Nat) (st : SplitState) (i : Nat) :
    List Char → Except Err SplitState
  | [] => Except.ok st
  | r :: rest =>
    match splitStep n st i r with
    | Except.error e => Except.error e
    | Except.ok st' => splitLoop n st' (i + 1) rest

/-- Initial values of `split`'s locals: empty `parts`, `parseDefault` state,
no escape, empty builder, `partStart = 0`. -/
def initState : SplitState :=
  { parts := [], state := PState.parseDefault, escape := false,
    sb := [], partStart := 0 }

/-- Go's `split`: append the `eol` sentinel, scan, and return the parts. -/
def split (str : List Char) : Except Err (List (List Char)) :=
  match splitLoop (str ++ [eol]).length initState 0 (str ++ [eol]) with
  | Except.error e => Except.error e
  | Except.ok st => Except.ok st.parts

/-- Go's `Parse`: split the line; zero parts is an error, one part is a
command without arguments, otherwise the first part is the command and the
rest are the arguments. -/
def Parse (commandLine : List Char) :
    Except Err (List Char × List (List Char)) :=
  match split commandLine with
  | Except.error e => Except.error e
  | Except.ok [] => Except.error errUnexpectedEnd
  | Except.ok [p] => Except.ok (p, [])
  | Except.ok (p :: rest) => Except.ok (p, rest)

/-- Go's `quoteRaw`: prepend a backslash before every space, quote or
backslash rune. -/
def quoteRaw : List Char → List Char
  | [] => []
  | r :: rest =>
    (if isSpace r ∨ r = sqt ∨ r = dqt ∨ r = esc then [esc, r] else [r]) ++
      quoteRaw rest

/-- Body of Go's `quoteSingle`: each single quote becomes the four runes
`sqt esc sqt sqt`; everything else is copied. -/
def quoteSingleBody : List Char → List Char
  | [] => []
  | r :: rest =>
    (if r = sqt then [sqt, esc, sqt, sqt] else [r]) ++ quoteSingleBody rest

/-- Go's `quoteSingle`: the body wrapped in single quotes. -/
def quoteSingle (str : List Char) : List Char :=
  [sqt] ++ quoteSingleBody str ++ [sqt]

/-- Body of Go's `quoteDouble`: escape double quotes and backslashes. -/
def quoteDoubleBody : List Char → List Char
  | [] => []
  | r :: rest =>
    (if r = dqt ∨ r = esc then [esc, r] else [r]) ++ quoteDoubleBody rest

/-- Go's `quoteDouble`: the body wrapped in double quotes. -/
def quoteDouble (str : List Char) : List Char :=
  [dqt] ++ quoteDoubleBody str ++ [dqt]

/-- Go's `len` on a string is its UTF-8 byte length; on a rune list this is
the sum of the runes' UTF-8 sizes. -/
def goLen (s : List Char) : Nat := (s.map Char.utf8Size).sum

/-- Go's `Quote`: empty strings render as `""`; otherwise compare the byte
lengths of the raw, single-quoted and double-quoted candidates exactly as
the source does. -/
def Quote (str : List Char) : List Char :=
  if goLen str = 0 then
    [dqt, dqt]
  else
    let raw := quoteRaw str
    let single := quoteSingle str
    let double := quoteDouble str
    if goLen raw < goLen double then
      if goLen single < goLen raw then single else raw
    else if goLen single < goLen double then single
    else double

/-- The argument loop of Go's `GetCommandLine`: a space then `Quote(arg)`,
for each argument in order. -/
def getCommandLineArgs : List (List Char) → List Char
  | [] => []
  | arg :: rest => [spaceChar] ++ Quote arg ++ getCommandLineArgs rest

/-- Go's `GetCommandLine`: quoted command followed by the quoted arguments,
one space before each. -/
def GetCommandLine (command : List Char) (args : List (List Char)) :
    List Char :=
  Quote command ++ getCommandLineArgs args

/-- Go's `MockExecutor`: holds the `RunCallback` function. The callback
returns output, exit code and an optional error. -/
structure MockExecutor where
  RunCallback : List Char → List (List Char) → List Char × Int × Option Err

/-- `MockExecutor.RunLine`: parse the line; on failure return
`("", 0, err)`, otherwise invoke the callback on the parsed command. -/
def MockExecutor.RunLine (e : MockExecutor) (commandLine : List Char) :
    List Char × Int × Option Err :=
  match Parse commandLine with
  | Except.error err => ([], 0, some err)
  | Except.ok (command, args) => e.RunCallback command args

/-- `MockExecutor.Run`: forward directly to the callback. -/
def MockExecutor.Run (e : MockExecutor) (command : List Char)
    (args : List (List Char)) : List Char × Int × Option Err :=
  e.RunCallback command args

/-- The quote-state and escape-flag transition of one `split` iteration,
as a pure automaton over `(state, escape)` pairs. Mirrors the projections
of `stepState`; used to phrase the end-of-input failure conditions. -/
def scanStep (p : PState × Bool) (r : Char) : PState × Bool :=
  match p.1 with
  | PState.parseDefault =>
    if p.2 then (p.1, false)
    else if isSpace r ∨ r = eol then p
    else if r = sqt then (PState.parseSingleQuote, p.2)
    else if r = dqt then (PState.parseDoubleQuote, p.2)
    else if r = esc then (p.1, true)
    else p
  | PState.parseSingleQuote =>
    if r = sqt then (PState.parseDefault, p.2) else p
  | PState.parseDoubleQuote =>
    if p.2 then (p.1, false)
    else if r = dqt then (PState.parseDefault, p.2)
    else if r = esc then (p.1, true)
    else p

/-- The quote-state and escape flag after scanning a whole line, starting
from the default state with no pending escape. -/
def scan (str : List Char) : PState × Bool :=
  str.foldl scanStep (PState.parseDefault, false)

theorem splitStep_ok_of_ne_eol (n i : Nat) (st : SplitState) (r : Char)
    (h : r ≠ eol) : splitStep n st i r = Except.ok (stepState st i r) := by
  simp [splitStep, h]

theorem splitStep_eol (n i : Nat) (st : SplitState) :
    splitStep n st i eol =
      (if i < n - 1 then Except.error errInvalidZero
       else if st.state ≠ PState.parseDefault ∨ st.escape = true then
         Except.error errUnexpectedEnd
       else Except.ok (stepState st i eol)) := by
  by_cases h1 : i < n - 1 <;>
    by_cases h2 : st.state ≠ PState.parseDefault ∨ st.escape = true <;>
    simp [splitStep, h1, h2]

theorem stepState_proj (st : SplitState) (i : Nat) (r : Char) :
    ((stepState st i r).state, (stepState st i r).escape) =
      scanStep (st.state, st.escape) r := by
  rcases st with ⟨parts, state, escape, sb, partStart⟩
  cases state <;> simp only [stepState, scanStep] <;> split_ifs <;> rfl

/-- Claim C1: the spec's round-trip law fails on the code. For the
single-rune command `a` with no arguments, `GetCommandLine` produces the
line `a`, and `Parse` rejects that line instead of returning the command
back: the `partStart < i-1` boundary test in `split` never fires for a
first token of source length one. -/
theorem roundtrip_fails_single_rune_command :
    GetCommandLine ("a".toList) [] = "a".toList ∧
    Parse ("a".toList) = Except.error errUnexpectedEnd := ⟨rfl, rfl⟩

/-- Claim C2: the token-boundary emission rule fails on the code at the
first boundary. In the line `a b`, the token `a` has been opened (one
character appended) when the whitespace boundary at index 1 is reached,
yet no token is emitted there (`partStart = 0 < 0` is false), so the two
tokens merge and `split` returns the single token `ab`. -/
theorem boundary_emission_fails_first_token :
    split ("a b".toList) = Except.ok ["ab".toList] ∧
    Parse ("a b".toList) = Except.ok ("ab".toList, []) := ⟨rfl, rfl⟩

/-- Claim C5: escape semantics differ by quoting context. Inside a single
quote span every rune other than the closing quote (the sentinel aside,
which errors out earlier) is appended literally, backslash included;
inside a double quote span with a pending escape, a backslash escapes only
a double quote or a backslash and is otherwise re-emitted literally before
the rune. Consequently the line `'a\b'` yields the token `a\b` and the
line `"\n"` yields the two-rune token `\n`. -/
theorem escape_semantics_by_context :
    (∀ (n i : Nat) (st : SplitState) (r : Char),
        st.state = PState.parseSingleQuote → r ≠ eol → r ≠ sqt →
        splitStep n st i r = Except.ok { st with sb := st.sb ++ [r] }) ∧
    (∀ (n i : Nat) (st : SplitState) (r : Char),
        st.state = PState.parseDoubleQuote → st.escape = true → r ≠ eol →
        splitStep n st i r =
          Except.ok { st with
            escape := false
            sb := st.sb ++ (if r ≠ esc ∧ r ≠ dqt then [esc, r] else [r]) }) ∧
    split ([sqt] ++ "a".toList ++ [esc] ++ "b".toList ++ [sqt]) =
      Except.ok ["a".toList ++ [esc] ++ "b".toList] ∧
    split ([dqt] ++ [esc] ++ "n".toList ++ [dqt]) =
      Except.ok [[esc] ++ "n".toList] := by
  refine ⟨?_, ?_, rfl, rfl⟩
  · intro n i st r h1 h2 h3
    rw [splitStep_ok_of_ne_eol _ _ _ _ h2]
    rcases st with ⟨parts, state, escape, sb, partStart⟩
    simp only at h1
    subst h1
    simp [stepState, h3]
  · intro n i st r h1 h2 h3
    rw [splitStep_ok_of_ne_eol _ _ _ _ h3]
    rcases st with ⟨parts, state, escape, sb, partStart⟩
    simp only at h1 h2
    subst h1
    subst h2
    simp [stepState]

/-- Witness for C5: concrete instances of both step rules, a backslash
inside a single quote span and an escaped `n` inside a double quote span. -/
theorem escape_semantics_by_context_witness :
    splitStep 9 (⟨[], PState.parseSingleQuote, false, [], 0⟩ : SplitState)
        3 esc =
      Except.ok { (⟨[], PState.parseSingleQuote, false, [], 0⟩ : SplitState)
        with sb :=
          (⟨[], PState.parseSingleQuote, false, [], 0⟩ : SplitState).sb ++
            [esc] } ∧
    splitStep 9 (⟨[], PState.parseDoubleQuote, true, [], 0⟩ : SplitState)
        3 (Char.ofNat 110) =
      Except.ok { (⟨[], PState.parseDoubleQuote, true, [], 0⟩ : SplitState)
        with
        escape := false
        sb := (⟨[], PState.parseDoubleQuote, true, [], 0⟩ : SplitState).sb ++
          (if (Char.ofNat 110) ≠ esc ∧ (Char.ofNat 110) ≠ dqt then
            [esc, Char.ofNat 110] else [Char.ofNat 110]) } :=
  ⟨escape_semantics_by_context.1 9 3 _ esc rfl (by decide) (by decide),
   escape_semantics_by_context.2.1 9 3 _ (Char.ofNat 110) rfl rfl (by decide)⟩

/-- Claim C6: adjacent quoted and unquoted spans concatenate into one
token and zero-content quote pairs yield empty tokens. Both §8 example
lines parse to exactly the values the spec states. -/
theorem quote_concatenation_examples :
    Parse ("cmd -d ".toList ++ [dqt] ++ "asdf".toList ++ [dqt, sqt] ++
        "qwert".toList ++ [sqt] ++ "foo".toList ++ [sqt] ++ "bar".toList ++
        [sqt, esc] ++ " ".toList ++ [dqt] ++ "test".toList ++ [dqt, dqt] ++
        "1234".toList ++ [dqt, esc] ++ " ".toList) =
      Except.ok ("cmd".toList,
        ["-d".toList, "asdfqwertfoobar test1234 ".toList]) ∧
    Parse ("cmd -d ".toList ++ [dqt, dqt] ++ " -m ".toList ++ [sqt, sqt]) =
      Except.ok ("cmd".toList, ["-d".toList, [], "-m".toList, []]) :=
  ⟨rfl, rfl⟩

theorem getCommandLineArgs_eq_flatten (args : List (List Char)) :
    getCommandLineArgs args =
      (args.map (fun arg => [spaceChar] ++ Quote arg)).flatten := by
  induction args with
  | nil => rfl
  | cons a rest ih => simp [getCommandLineArgs, ih]

/-- Claim C7: `GetCommandLine` is `Quote` of the command followed by one
space and `Quote` of each argument in order; `Quote` of the empty token is
the two-rune double-quote pair, `foobar` stays raw, `foo bar` becomes the
raw escaped form, and the §8 six-argument example produces exactly the
line the spec gives. -/
theorem encoder_composition_and_examples :
    (∀ (c : List Char) (args : List (List Char)),
        GetCommandLine c args =
          Quote c ++ (args.map (fun arg => [spaceChar] ++ Quote arg)).flatten) ∧
    Quote [] = [dqt, dqt] ∧
    Quote ("foobar".toList) = "foobar".toList ∧
    Quote ("foo bar".toList) = "foo".toList ++ [esc] ++ " bar".toList ∧
    GetCommandLine ("newcommand".toList)
        ["blub".toList, [], "foo bar".toList, [dqt] ++ "test  ".toList,
          "blub".toList ++ [sqt, sqt, esc], [dqt, dqt, dqt]] =
      "newcommand blub ".toList ++ [dqt, dqt] ++ " foo".toList ++ [esc] ++
        " bar ".toList ++ [sqt, dqt] ++ "test  ".toList ++ [sqt] ++
        " ".toList ++ [dqt] ++ "blub".toList ++ [sqt, sqt, esc, esc, dqt] ++
        " ".toList ++ [sqt, dqt, dqt, dqt, sqt] := by
  refine ⟨?_, rfl, rfl, rfl, rfl⟩
  intro c args
  unfold GetCommandLine
  rw [getCommandLineArgs_eq_flatten]

theorem splitLoop_error_iff (chunk : List Char) :
    ∀ (st : SplitState) (i n : Nat), n = i + chunk.length + 1 →
      ((∃ e, splitLoop n st i (chunk ++ [eol]) = Except.error e) ↔
        (eol ∈ chunk ∨
          chunk.foldl scanStep (st.state, st.escape) ≠
            (PState.parseDefault, false))) := by
  induction chunk with
  | nil =>
    intro st i n hn
    subst hn
    have hi : ¬ (i < i + List.length ([] : List Char) + 1 - 1) := by
      simp
    simp only [List.nil_append, List.foldl_nil, List.not_mem_nil, false_or]
    rw [splitLoop, splitStep_eol, if_neg hi]
    by_cases h2 : st.state ≠ PState.parseDefault ∨ st.escape = true
    · rw [if_pos h2]
      refine iff_of_true ⟨errUnexpectedEnd, rfl⟩ ?_
      rw [Ne, Prod.ext_iff, not_and_or]
      rcases h2 with h2 | h2
      · exact Or.inl h2
      · exact Or.inr (by simp [h2])
    · rw [if_neg h2]
      push_neg at h2
      refine iff_of_false ?_ ?_
      · rintro ⟨e, he⟩
        simp [splitLoop] at he
      · rw [Ne, Prod.ext_iff, not_and_or]
        push_neg
        exact ⟨h2.1, by simp [h2.2]⟩
  | cons c rest ih =>
    intro st i n hn
    simp only [List.length_cons] at hn
    by_cases hc : c = eol
    · subst hc
      have hi : i < n - 1 := by omega
      refine iff_of_true ?_ (Or.inl (List.mem_cons_self _ _))
      rw [List.cons_append, splitLoop, splitStep_eol, if_pos hi]
      exact ⟨errInvalidZero, rfl⟩
    · rw [List.cons_append, splitLoop, splitStep_ok_of_ne_eol _ _ _ _ hc]
      rw [ih (stepState st i c) (i + 1) n (by omega)]
      rw [List.foldl_cons, ← stepState_proj st i c]
      have hmem : (eol ∈ c :: rest) ↔ (eol ∈ rest) := by
        constructor
        · intro h
          rcases List.mem_cons.mp h with h | h
          · exact absurd h.symm hc
          · exact h
        · exact fun h => List.mem_cons.mpr (Or.inr h)
      rw [hmem]

theorem split_error_iff (s : List Char) :
    (∃ e, split s = Except.error e) ↔
      (eol ∈ s ∨ scan s ≠ (PState.parseDefault, false)) := by
  have h := splitLoop_error_iff s initState 0 ((s ++ [eol]).length) (by simp)
  have hinit : (initState.state, initState.escape) =
      (PState.parseDefault, false) := rfl
  rw [hinit] at h
  unfold split scan
  cases hl : splitLoop ((s ++ [eol]).length) initState 0 (s ++ [eol]) with
  | error e =>
    rw [hl] at h
    refine Iff.trans ?_ h
    constructor
    · intro _; exact ⟨e, rfl⟩
    · intro _; exact ⟨e, rfl⟩
  | ok st =>
    rw [hl] at h
    refine Iff.trans ?_ h
    constructor
    · rintro ⟨e, he⟩; cases he
    · rintro ⟨e, he⟩; cases he

/-- Claim C3: `Parse` fails exactly when the line contains the sentinel
rune U+0000, or the scan ends inside a quote span, or the scan ends with
an escape pending, or the split yields zero tokens; in every other case it
succeeds (and the `Except` result carries no token list on failure). -/
theorem parse_error_iff_conditions (s : List Char) :
    (∃ e, Parse s = Except.error e) ↔
      (eol ∈ s ∨ (scan s).1 ≠ PState.parseDefault ∨ (scan s).2 = true ∨
        split s = Except.ok []) := by
  cases hs : split s with
  | error e =>
    have herr : ∃ e, split s = Except.error e := ⟨e, hs⟩
    rw [split_error_iff] at herr
    refine iff_of_true ⟨e, by simp [Parse, hs]⟩ ?_
    rcases herr with hmem | hne
    · exact Or.inl hmem
    · rw [Ne, Prod.ext_iff, not_and_or] at hne
      rcases hne with h1 | h2
      · exact Or.inr (Or.inl h1)
      · exact Or.inr (Or.inr (Or.inl (by simpa using h2)))
  | ok parts =>
    have hok : ¬ ∃ e, split s = Except.error e := by simp [hs]
    rw [split_error_iff] at hok
    push_neg at hok
    obtain ⟨hmem, hscan⟩ := hok
    cases parts with
    | nil =>
      refine iff_of_true ⟨errUnexpectedEnd, by simp [Parse, hs]⟩ ?_
      exact Or.inr (Or.inr (Or.inr rfl))
    | cons p rest =>
      refine iff_of_false ?_ ?_
      · rintro ⟨e, he⟩
        cases rest <;> simp [Parse, hs] at he
      · simp [hmem, hscan, hs]

theorem parse_ok_iff_split_aux (s cmd : List Char)
    (args : List (List Char)) :
    Parse s = Except.ok (cmd, args) ↔ split s = Except.ok (cmd :: args) := by
  cases hs : split s with
  | error e => simp [Parse, hs]
  | ok parts =>
    match parts with
    | [] => simp [Parse, hs]
    | [p] =>
      simp only [Parse, hs]
      constructor
      · rintro h
        obtain ⟨h1, h2⟩ := Prod.mk.injEq .. ▸ Except.ok.inj h
        subst h1
        rw [← h2]
      · intro h
        obtain h := Except.ok.inj h
        obtain ⟨h1, h2⟩ := List.cons.injEq .. ▸ h
        subst h1
        rw [← h2]
    | p :: q :: rest =>
      simp only [Parse, hs]
      constructor
      · rintro h
        obtain ⟨h1, h2⟩ := Prod.mk.injEq .. ▸ Except.ok.inj h
        subst h1
        rw [← h2]
      · intro h
        obtain h := Except.ok.inj h
        obtain ⟨h1, h2⟩ := List.cons.injEq .. ▸ h
        subst h1
        rw [h2]

/-- Claim C8: a successful `Parse` yields exactly the token list of
`split`, nonempty, with the first token as the command and the remaining
tokens, in order, as the arguments (empty when there is one token). -/
theorem parse_ok_structure (s cmd : List Char) (args : List (List Char)) :
    Parse s = Except.ok (cmd, args) ↔ split s = Except.ok (cmd :: args) :=
  parse_ok_iff_split_aux s cmd args

theorem stepState_preserves_no_eol (st : SplitState) (i : Nat) (r : Char)
    (hr : r ≠ eol) (hsb : eol ∉ st.sb) (hparts : eol ∉ st.parts.flatten) :
    eol ∉ (stepState st i r).sb ∧ eol ∉ (stepState st i r).parts.flatten := by
  have hesc : ¬ (eol = esc) := by decide
  have hr' : ¬ (eol = r) := fun h => hr h.symm
  rcases st with ⟨parts, state, escape, sb, partStart⟩
  cases state <;>
    simp only [stepState] <;>
    split_ifs <;>
    constructor <;>
    simp_all [List.flatten_append, List.mem_append, List.mem_cons]

theorem splitStep_ok_val (n i : Nat) (st st' : SplitState) (r : Char)
    (h : splitStep n st i r = Except.ok st') :
    st' = stepState st i r ∧
      (r = eol → st.state = PState.parseDefault ∧ st.escape = false) := by
  unfold splitStep at h
  split_ifs at h with h1 h2
  injection h with h
  subst h
  refine ⟨rfl, fun hr => ⟨?_, ?_⟩⟩
  · by_contra hne
    exact h2 ⟨hr, Or.inl hne⟩
  · cases hesc : st.escape
    · rfl
    · exact absurd ⟨hr, Or.inr hesc⟩ h2

theorem stepState_eol_boundary (st : SplitState) (i : Nat)
    (hstate : st.state = PState.parseDefault) (hesc : st.escape = false) :
    stepState st i eol =
      (if st.partStart < i - 1 then
        { st with parts := st.parts ++ [st.sb], sb := [], partStart := i }
      else { st with partStart := i }) := by
  rcases st with ⟨parts, state, escape, sb, partStart⟩
  simp only at hstate hesc
  subst hstate
  subst hesc
  simp [stepState]

theorem splitStep_preserves_no_eol (n i : Nat) (st st' : SplitState)
    (r : Char) (h : splitStep n st i r = Except.ok st')
    (hsb : eol ∉ st.sb) (hparts : eol ∉ st.parts.flatten) :
    eol ∉ st'.sb ∧ eol ∉ st'.parts.flatten := by
  obtain ⟨hval, hcond⟩ := splitStep_ok_val n i st st' r h
  subst hval
  by_cases hr : r = eol
  · obtain ⟨hstate, hesc⟩ := hcond hr
    subst hr
    rw [stepState_eol_boundary st i hstate hesc]
    split_ifs <;> constructor <;>
      simp_all [List.flatten_append, List.mem_append]
  · exact stepState_preserves_no_eol st i r hr hsb hparts

theorem splitLoop_preserves_no_eol (chunk : List Char) :
    ∀ (n i : Nat) (st st' : SplitState),
      splitLoop n st i chunk = Except.ok st' →
      eol ∉ st.sb → eol ∉ st.parts.flatten →
      eol ∉ st'.sb ∧ eol ∉ st'.parts.flatten := by
  induction chunk with
  | nil =>
    intro n i st st' h hsb hparts
    obtain rfl := Except.ok.inj h
    exact ⟨hsb, hparts⟩
  | cons c rest ih =>
    intro n i st st' h hsb hparts
    cases hstep : splitStep n st i c with
    | error e => simp [splitLoop, hstep] at h
    | ok st1 =>
      simp only [splitLoop, hstep] at h
      obtain ⟨h1, h2⟩ := splitStep_preserves_no_eol n i st st1 c hstep hsb hparts
      exact ih n (i + 1) st1 st' h h1 h2

theorem split_no_eol (s : List Char) (parts : List (List Char))
    (h : split s = Except.ok parts) : eol ∉ parts.flatten := by
  unfold split at h
  cases hl : splitLoop ((s ++ [eol]).length) initState 0 (s ++ [eol]) with
  | error e => rw [hl] at h; cases h
  | ok st =>
    rw [hl] at h
    obtain rfl := Except.ok.inj h
    exact (splitLoop_preserves_no_eol (s ++ [eol]) _ 0 initState st hl
      (by simp [initState]) (by simp [initState])).2

/-- Claim C9: a successful `Parse` never returns the sentinel rune U+0000
in the command or in any argument, because a literal U+0000 anywhere in
the input fails the parse before it could reach a token buffer. -/
theorem parse_ok_no_sentinel (s cmd : List Char) (args : List (List Char))
    (h : Parse s = Except.ok (cmd, args)) :
    eol ∉ cmd ∧ eol ∉ args.flatten := by
  rw [parse_ok_iff_split_aux] at h
  have hall := split_no_eol s (cmd :: args) h
  simp only [List.flatten_cons, List.mem_append] at hall
  push_neg at hall
  exact hall

/-- Witness for C9 at the line `ab cd`. -/
theorem parse_ok_no_sentinel_witness :
    eol ∉ ("ab".toList) ∧ eol ∉ (["cd".toList] : List (List Char)).flatten :=
  parse_ok_no_sentinel ("ab cd".toList) ("ab".toList) ["cd".toList] rfl

/-- Claim C4: for a non-empty token, `Quote` selects among the three
candidate renderings by the exact two-stage rule: first the double-quoted
form if the raw form is at least as long, else the raw form; then the
single-quoted form only if strictly shorter than that winner. Lengths are
Go byte lengths (`goLen`). -/
theorem quote_selection (str : List Char) (h : str ≠ []) :
    Quote str =
      (let raw := quoteRaw str
       let single := quoteSingle str
       let double := quoteDouble str
       let winner := if goLen raw ≥ goLen double then double else raw
       if goLen single < goLen winner then single else winner) := by
  have h0 : ¬ goLen str = 0 := by
    cases str with
    | nil => exact absurd rfl h
    | cons c t =>
      have hc := Char.utf8Size_pos c
      simp [goLen]
      omega
  unfold Quote
  rw [if_neg h0]
  by_cases h1 : goLen (quoteRaw str) < goLen (quoteDouble str) <;>
    by_cases h2 : goLen (quoteSingle str) < goLen (quoteRaw str) <;>
    by_cases h3 : goLen (quoteSingle str) < goLen (quoteDouble str) <;>
    by_cases h4 : goLen (quoteRaw str) ≥ goLen (quoteDouble str) <;>
    simp only [h1, h2, h3, h4, if_true, if_false] <;>
    first | rfl | (exfalso; omega)

/-- Witness for C4 at the token `foo bar`. -/
theorem quote_selection_witness :
    Quote ("foo bar".toList) =
      (let raw := quoteRaw ("foo bar".toList)
       let single := quoteSingle ("foo bar".toList)
       let double := quoteDouble ("foo bar".toList)
       let winner := if goLen raw ≥ goLen double then double else raw
       if goLen single < goLen winner then single else winner) :=
  quote_selection ("foo bar".toList) (by decide)

/-- Claim C10: `MockExecutor.RunLine` reaches the callback exactly when
`Parse` succeeds: on a parse failure it returns empty output, exit code 0
and the parse error, independently of the callback; on success it returns
exactly the callback's result on the parsed command and arguments; and
`MockExecutor.Run` always forwards directly to the callback. -/
theorem mock_executor_routing :
    (∀ (e : MockExecutor) (line : List Char) (err : Err),
        Parse line = Except.error err →
        MockExecutor.RunLine e line = ([], 0, some err)) ∧
    (∀ (e : MockExecutor) (line cmd : List Char) (args : List (List Char)),
        Parse line = Except.ok (cmd, args) →
        MockExecutor.RunLine e line = e.RunCallback cmd args) ∧
    (∀ (e e' : MockExecutor) (line : List Char) (err : Err),
        Parse line = Except.error err →
        MockExecutor.RunLine e line = MockExecutor.RunLine e' line) ∧
    (∀ (e : MockExecutor) (cmd : List Char) (args : List (List Char)),
        MockExecutor.Run e cmd args = e.RunCallback cmd args) := by
  refine ⟨?_, ?_, ?_, ?_⟩
  · intro e line err h
    simp [MockExecutor.RunLine, h]
  · intro e line cmd args h
    simp [MockExecutor.RunLine, h]
  · intro e e' line err h
    simp [MockExecutor.RunLine, h]
  · intro e cmd args
    rfl

/-- Witness for C10: a concrete mock on a failing line (lone double
quote) and on the succeeding line `ab cd`. -/
theorem mock_executor_routing_witness :
    MockExecutor.RunLine ⟨fun c a => (c ++ a.flatten, 42, none)⟩ [dqt] =
      ([], 0, some errUnexpectedEnd) ∧
    MockExecutor.RunLine ⟨fun c a => (c ++ a.flatten, 42, none)⟩
        ("ab cd".toList) =
      ("ab".toList ++ (["cd".toList] : List (List Char)).flatten, 42, none) :=
  ⟨mock_executor_routing.1 ⟨fun c a => (c ++ a.flatten, 42, none)⟩ [dqt]
      errUnexpectedEnd rfl,
   mock_executor_routing.2.1 ⟨fun c a => (c ++ a.flatten, 42, none)⟩
      ("ab cd".toList) ("ab".toList) ["cd".toList] rfl⟩

end Exec
